import Mathlib

/-!
Verification of the shmap lock-free shared-memory containers against their
specification.  The C++ sources are shallowly embedded as pure Lean
functions: the sequential (no-contention) semantics of each operation is
modelled, where every compare-exchange on an otherwise unobserved atomic
succeeds, and a spin that waits for another thread (Backoff retry loops on
transient bucket states) is modelled by its sequential outcome (TIMEOUT,
since no other thread can change the state).  Machine counters (size_t)
are modelled by Nat: all values that reach a comparison or an array index
in the modelled code are reduced modulo the capacity or stay below 2^64 in
difference form, so Nat arithmetic agrees with the unsigned arithmetic of
the source on every reachable state.
-/

namespace Shmap

/-- Status codes from include/shmap/status.h.  A status is truthy exactly
when it is SUCCESS. -/
inductive Status where
  | SUCCESS
  | ERROR
  | EXCEPTION
  | NOT_FOUND
  | ALREADY_EXISTS
  | TIMEOUT
  | NOT_READY
  | OUT_OF_MEMORY
  | INVALID_ARGUMENT
  | NOT_IMPLEMENTED
  | CRASH
  | UNKNOWN
deriving DecidableEq

/-- Per-bucket state machine constants of ShmBucket (shm_hash_table.h). -/
inductive BucketState where
  | EMPTY
  | INSERTING
  | READY
  | ACCESSING
deriving DecidableEq

/-- ShmBucket: state, key and value.  Alignment and padding are layout
concerns with no behavioural content and are not modelled. -/
structure Bucket (K V : Type) where
  state : BucketState
  key : K
  value : V

/-- The bucket array of ShmHashTable.  The code only ever indexes
buckets_[x] for x already reduced modulo CAPACITY, so the array is
modelled as a total function on Nat. -/
def Table (K V : Type) : Type := Nat → Bucket K V

/-- Write one bucket of the array. -/
def Table.set {K V : Type} (t : Table K V) (i : Nat) (b : Bucket K V) : Table K V :=
  fun j => if j = i then b else t j

/-- AccessMode from shm_hash_table.h. -/
inductive AccessMode where
  | AccessExist
  | CreateIfMiss
deriving DecidableEq

/-- A visitor for Visit: the C++ callable `Status (idx, Value&, bool isNew)`
with arbitrary mutable captured state S.  It receives its own state, the
bucket index, the current value and the isNew flag, and returns the status,
the value it leaves in the bucket and its new captured state.  A visitor
that throws is modelled by one that returns ERROR together with whatever
partial writes it made to the value (ApplyVisitor catches and translates). -/
def Visitor (S V : Type) : Type := S → Nat → V → Bool → Status × V × S

/-- A visitor for Travel: the C++ callable `Status (idx, const Key&, Value&)`
with mutable captured state S. -/
def TravelVisitor (S K V : Type) : Type := S → Nat → K → V → Status × V × S

/-- Sequential semantics of the probe loop of ShmHashTable::Visit
(shm_hash_table.h, lines 72-157).  `pos` is the absolute probe position
(bucket index is pos % CAP) and `fuel` the number of remaining probes,
starting at CAPACITY.  In the sequential model every CAS succeeds on the
first attempt, and a bucket observed INSERTING or ACCESSING never changes,
so the backoff loop of the source ends in TIMEOUT. -/
def visitAux {K V S : Type} (CAP : Nat) (rollback : Bool) (keyEq : K → K → Bool)
    (d : V) (key : K) (mode : AccessMode) (vis : Visitor S V)
    (t : Table K V) (s : S) : Nat → Nat → Status × Table K V × S
  | _, 0 => (Status.NOT_FOUND, t, s)
  | pos, fuel + 1 =>
    let i := pos % CAP
    let b := t i
    if b.state = BucketState.READY then
      if keyEq b.key key then
        let r := vis s i b.value false
        let v2 := if rollback ∧ r.1 ≠ Status.SUCCESS then b.value else r.2.1
        (r.1, Table.set t i ⟨BucketState.READY, b.key, v2⟩, r.2.2)
      else
        visitAux CAP rollback keyEq d key mode vis t s (pos + 1) fuel
    else if b.state = BucketState.EMPTY then
      if mode = AccessMode.CreateIfMiss then
        let r := vis s i d true
        let v2 := if rollback ∧ r.1 ≠ Status.SUCCESS then d else r.2.1
        if r.1 = Status.SUCCESS then
          (Status.SUCCESS, Table.set t i ⟨BucketState.READY, key, v2⟩, r.2.2)
        else
          (r.1, Table.set t i ⟨BucketState.EMPTY, b.key, v2⟩, r.2.2)
      else
        (Status.NOT_FOUND, t, s)
    else
      (Status.TIMEOUT, t, s)

/-- ShmHashTable::Visit, sequential semantics.  The start index is
hash(key) % CAPACITY and at most CAPACITY probes are made. -/
def Visit {K V S : Type} (CAP : Nat) (rollback : Bool) (hash : K → Nat)
    (keyEq : K → K → Bool) (d : V) (key : K) (mode : AccessMode)
    (vis : Visitor S V) (t : Table K V) (s : S) : Status × Table K V × S :=
  visitAux CAP rollback keyEq d key mode vis t s (hash key % CAP) CAP

/-- Sequential semantics of the scan loop of ShmHashTable::Travel
(shm_hash_table.h, lines 167-194).  `fuel` counts the remaining indices
(CAPACITY - idx).  An EMPTY bucket only advances to the next index; a
READY bucket is visited (no value snapshot, no rollback — Travel calls the
plain ApplyVisitor overload); a transient bucket never changes in the
sequential model, so the backoff loop of the source ends in TIMEOUT. -/
def travelAux {K V S : Type} (vis : TravelVisitor S K V) :
    Nat → Nat → Table K V → S → Status × Table K V × S
  | 0, _, t, s => (Status.SUCCESS, t, s)
  | fuel + 1, idx, t, s =>
    let b := t idx
    if b.state = BucketState.EMPTY then
      travelAux vis fuel (idx + 1) t s
    else if b.state = BucketState.READY then
      let r := vis s idx b.key b.value
      let t2 := Table.set t idx ⟨BucketState.READY, b.key, r.2.1⟩
      if r.1 = Status.SUCCESS then travelAux vis fuel (idx + 1) t2 r.2.2
      else (r.1, t2, r.2.2)
    else
      (Status.TIMEOUT, t, s)

/-- ShmHashTable::Travel, sequential semantics.  The table type carries the
ROLLBACK_ENABLE flag, but Travel never consults it: it calls the generic
ApplyVisitor overload, which performs no value snapshot and no restore. -/
def Travel {K V S : Type} (CAP : Nat) (rollback : Bool)
    (vis : TravelVisitor S K V) (t : Table K V) (s : S) :
    Status × Table K V × S :=
  travelAux vis CAP 0 t s

/-- Reference function written from the specification text of Travel: run
the visitor on the listed bucket indices in list order, stopping with the
visitor's status at the first non-SUCCESS result, and storing the visitor's
value and READY back into each visited bucket. -/
def travelSpec {K V S : Type} (vis : TravelVisitor S K V) :
    List Nat → Table K V → S → Status × Table K V × S
  | [], t, s => (Status.SUCCESS, t, s)
  | i :: rest, t, s =>
    let b := t i
    let r := vis s i b.key b.value
    let t2 := Table.set t i ⟨BucketState.READY, b.key, r.2.1⟩
    if r.1 = Status.SUCCESS then travelSpec vis rest t2 r.2.2
    else (r.1, t2, r.2.2)

/-- The indices of the READY buckets, in increasing order. -/
def readyIndices {K V : Type} (CAP : Nat) (t : Table K V) : List Nat :=
  (List.range CAP).filter (fun i => decide ((t i).state = BucketState.READY))

/-- A table state in which every bucket is at rest (EMPTY or READY):
exactly the states observable while no operation is in flight. -/
def Quiescent {K V : Type} (CAP : Nat) (t : Table K V) : Prop :=
  ∀ i, i < CAP →
    (t i).state = BucketState.EMPTY ∨ (t i).state = BucketState.READY

instance {K V : Type} (CAP : Nat) (t : Table K V) : Decidable (Quiescent CAP t) :=
  inferInstanceAs (Decidable (∀ i, i < CAP → _ ∨ _))

/-- The zero-initialized table: every bucket EMPTY (state value 0). -/
def emptyTable : Table Int Int := fun _ => ⟨BucketState.EMPTY, 0, 0⟩

/-- Hash functor used in the concrete scenarios (std::hash<int> composed
with the modulo reduction of the table; any function works here). -/
def intHash : Int → Nat := Int.natAbs

/-- Key equality functor used in the concrete scenarios (std::equal_to). -/
def intEq : Int → Int → Bool := fun a b => a == b

/-- A visitor that assigns a fixed value, succeeds, and records the isNew
flag it observed. -/
def setVis (newVal : Int) : Visitor Bool Int :=
  fun _ _ _ isNew => (Status.SUCCESS, newVal, isNew)

/-- A read-only visitor: leaves the value unchanged, succeeds, and records
the value it observed. -/
def readVis : Visitor (Option Int) Int :=
  fun _ _ v _ => (Status.SUCCESS, v, some v)

/-- A visitor that writes a value and returns a fixed (failing) status. -/
def failVis (newVal : Int) (st : Status) : Visitor Unit Int :=
  fun _ _ _ _ => (st, newVal, ())

/-- A table with a single entry (7, 1) in bucket 3, as produced by
inserting key 7 into an empty capacity-4 table. -/
def c3t : Table Int Int :=
  fun i => if i = 3 then ⟨BucketState.READY, 7, 1⟩ else ⟨BucketState.EMPTY, 0, 0⟩

/-- A capacity-4 table with READY buckets at indices 0 and 2 separated by
an EMPTY bucket at index 1. -/
def c4t : Table Int Int :=
  fun i =>
    if i = 0 then ⟨BucketState.READY, 1, 10⟩
    else if i = 2 then ⟨BucketState.READY, 2, 20⟩
    else ⟨BucketState.EMPTY, 0, 0⟩

/-- A travel visitor that succeeds, keeps the value, and counts calls. -/
def countVis : TravelVisitor Nat Int Int :=
  fun s _ _ v => (Status.SUCCESS, v, s + 1)

/-- A capacity-4 table with a single entry (5, 1) in bucket 2. -/
def c10t : Table Int Int :=
  fun i => if i = 2 then ⟨BucketState.READY, 5, 1⟩ else ⟨BucketState.EMPTY, 0, 0⟩

/-- A travel visitor that overwrites the value with 99 and returns ERROR. -/
def c10vis : TravelVisitor Unit Int Int :=
  fun _ _ _ _ => (Status.ERROR, 99, ())

/-- ShmRingBuffer (shm_ring_buffer.h): monotone counters head and tail over
a backing array indexed modulo the capacity.  The source counters are
size_t; since the modelled code only uses them through tail - head (which
the invariant keeps below the power-of-two capacity) and through reduction
modulo the capacity (which divides 2^64), Nat counters agree with the
wrapping unsigned counters on every state reachable from zero. -/
structure RingBuffer (T : Type) where
  data : Nat → T
  head : Nat
  tail : Nat

/-- ShmRingBuffer::push (single producer): full when tail - head ≥ N,
otherwise write data[tail mod N] and increment tail. -/
def RingBuffer.push {T : Type} (N : Nat) (rb : RingBuffer T) (v : T) :
    Bool × RingBuffer T :=
  if N ≤ rb.tail - rb.head then (false, rb)
  else (true, { rb with
    data := fun j => if j = rb.tail % N then v else rb.data j,
    tail := rb.tail + 1 })

/-- ShmRingBuffer::pop, sequential semantics of the CAS loop: empty when
head ≥ tail, otherwise return data[head mod N] and increment head. -/
def RingBuffer.pop {T : Type} (N : Nat) (rb : RingBuffer T) :
    Option T × RingBuffer T :=
  if rb.tail ≤ rb.head then (none, rb)
  else (some (rb.data (rb.head % N)), { rb with head := rb.head + 1 })

/-- ShmRingBuffer::size. -/
def RingBuffer.size {T : Type} (rb : RingBuffer T) : Nat := rb.tail - rb.head

/-- The zero-initialized ring buffer. -/
def rbZero {T : Type} (dflt : T) : RingBuffer T := ⟨fun _ => dflt, 0, 0⟩

/-- One client operation on a ring buffer. -/
inductive RbOp (T : Type) where
  | push (v : T)
  | pop

/-- Run a sequence of ring operations from an accumulator holding the
buffer, the number of successful pushes and the number of successful pops. -/
def runOps {T : Type} (N : Nat) :
    List (RbOp T) → RingBuffer T × Nat × Nat → RingBuffer T × Nat × Nat
  | [], acc => acc
  | op :: rest, (rb, p, q) =>
    match op with
    | RbOp.push v =>
      let r := RingBuffer.push N rb v
      runOps N rest (r.2, p + (if r.1 then 1 else 0), q)
    | RbOp.pop =>
      let r := RingBuffer.pop N rb
      runOps N rest (r.2, p, q + (if r.1.isSome then 1 else 0))

/-- The ring invariant: head never passes tail, the occupancy never
exceeds the capacity, and the success counters track the counters. -/
def RbInv {T : Type} (N : Nat) (x : RingBuffer T × Nat × Nat) : Prop :=
  x.1.head ≤ x.1.tail ∧ x.1.tail - x.1.head ≤ N
    ∧ x.2.1 = x.1.tail ∧ x.2.2 = x.1.head

/-- ShmVector (shm_vector.h): data array plus atomic size. -/
structure ShmVector (T : Type) where
  data : Nat → T
  size : Nat

/-- Word size of the size_t arithmetic of the source. -/
def U64 : Nat := 2 ^ 64

/-- ShmVector::allocate, sequential semantics of the CAS loop: the source
computes old + n in wrapping size_t arithmetic (shm_vector.h line 44) and
fails (nullopt, no change) when that wrapped sum exceeds the capacity N;
otherwise it stores the wrapped sum as the new size and returns the old
size. -/
def ShmVector.allocate {T : Type} (N : Nat) (v : ShmVector T) (n : Nat) :
    Option Nat × ShmVector T :=
  if N < (v.size + n) % U64 then (none, v)
  else (some v.size, { v with size := (v.size + n) % U64 })

/-- ShmVector::push_back: allocate(1) followed by a store at the returned
index. -/
def ShmVector.push_back {T : Type} (N : Nat) (v : ShmVector T) (x : T) :
    Option Nat × ShmVector T :=
  match ShmVector.allocate N v 1 with
  | (none, v2) => (none, v2)
  | (some i, v2) =>
    (some i, { v2 with data := fun j => if j = i then x else v2.data j })

/-- ShmVector::operator[]: the read is guarded by the assertions i < N and
i < size (acquire); an access violating either bound is rejected (the
assertion fires instead of reading the array) and is modelled as none. -/
def ShmVector.get {T : Type} (N : Nat) (v : ShmVector T) (i : Nat) : Option T :=
  if i < N ∧ i < v.size then some (v.data i) else none

/-- A concrete one-element vector used by witnesses. -/
def v6 : ShmVector Int := ⟨fun _ => 0, 1⟩

/-- What one call of Backoff::next does before returning. -/
inductive BackoffAction where
  | giveUp
  | yield
  | sleep (ns : Nat)
deriving DecidableEq

/-- Backoff (backoff.h): the spin counter is the only state; the steady
clock is abstracted by passing next the elapsed nanoseconds. -/
structure Backoff where
  spin : Nat

/-- First YIELD_LIMIT attempts use yield (backoff.h). -/
def YIELD_LIMIT : Nat := 10

/-- Exponent cap: 1 << MAX_BACKOFF_EXP ns is about one millisecond. -/
def MAX_BACKOFF_EXP : Nat := 20

/-- Backoff::next: consult the deadline first and give up, without any
wait, exactly when the elapsed time exceeds the timeout; otherwise yield
while spin < YIELD_LIMIT, and afterwards sleep 1 << min(spin - 10, 20)
nanoseconds; then increment spin and continue. -/
def Backoff.next (b : Backoff) (elapsed timeout : Nat) :
    Bool × BackoffAction × Backoff :=
  if timeout < elapsed then (false, BackoffAction.giveUp, b)
  else if b.spin < YIELD_LIMIT then (true, BackoffAction.yield, ⟨b.spin + 1⟩)
  else (true,
    BackoffAction.sleep (2 ^ min (b.spin - YIELD_LIMIT) MAX_BACKOFF_EXP),
    ⟨b.spin + 1⟩)

/-- ShmBlock state constants (shm_storage.h). -/
def BLOCK_UNINIT : Nat := 0

/-- ShmBlock state BUILDING. -/
def BLOCK_BUILDING : Nat := 1

/-- ShmBlock state READY. -/
def BLOCK_READY : Nat := 2

/-- ShmBlock::WaitReady (shm_storage.h, lines 75-79): spin while the block
state is not READY, with no deadline at all.  In the sequential model the
observed state never changes; waitReadySteps s n tells whether the loop
has exited within n iterations. -/
def waitReadySteps (state : Nat) : Nat → Bool
  | 0 => false
  | n + 1 => if state = BLOCK_READY then true else waitReadySteps state n

/-- WaitReady terminates iff some finite number of iterations suffices. -/
def WaitReadyTerminates (state : Nat) : Prop :=
  ∃ n, waitReadySteps state n = true

/-- The drain loop of BroadcastRingBuffer::push (shm_ring_buffer.h, lines
190-192): spin while the claimed slot's remain count is not 0, with no
deadline, the observed count never changing in the sequential model. -/
def broadcastDrainSteps (remain : Nat) : Nat → Bool
  | 0 => false
  | n + 1 => if remain = 0 then true else broadcastDrainSteps remain n

/-- The drain loop terminates iff some finite iteration count suffices. -/
def BroadcastDrainTerminates (remain : Nat) : Prop :=
  ∃ n, broadcastDrainSteps remain n = true

end Shmap

namespace Shmap

theorem Table.set_self {K V : Type} (t : Table K V) (i : Nat) (b : Bucket K V) :
    Table.set t i b i = b := by
  simp [Table.set]

theorem Table.set_ne {K V : Type} (t : Table K V) (i j : Nat) (b : Bucket K V)
    (h : j ≠ i) : Table.set t i b j = t j := by
  simp [Table.set, h]

/-- Two distinct probe offsets below CAPACITY land on distinct buckets. -/
theorem probe_mod_ne (CAP i0 m j : Nat) (hm : m < j) (hj : j < CAP) :
    (i0 + m) % CAP ≠ (i0 + j) % CAP := by
  intro h
  have h2 : Nat.ModEq CAP (i0 + m) (i0 + j) := h
  have hmod : m % CAP = j % CAP := Nat.ModEq.add_left_cancel' i0 h2
  rw [Nat.mod_eq_of_lt (hm.trans hj), Nat.mod_eq_of_lt hj] at hmod
  omega

/-- Probing skips over a run of READY buckets whose keys do not match. -/
theorem visit_skip_probes {K V S : Type} (CAP : Nat) (rollback : Bool)
    (keyEq : K → K → Bool) (d : V) (key : K) (mode : AccessMode)
    (vis : Visitor S V) (t : Table K V) (s : S) (j : Nat) :
    ∀ (pos fuel : Nat),
      (∀ m, m < j → (t ((pos + m) % CAP)).state = BucketState.READY ∧
        keyEq (t ((pos + m) % CAP)).key key = false) →
      visitAux CAP rollback keyEq d key mode vis t s pos (j + fuel) =
        visitAux CAP rollback keyEq d key mode vis t s (pos + j) fuel := by
  induction j with
  | zero => intro pos fuel _; simp
  | succ j ih =>
    intro pos fuel hpre
    have h0 := hpre 0 j.succ_pos
    rw [Nat.add_zero] at h0
    have hstep : visitAux CAP rollback keyEq d key mode vis t s pos (j + 1 + fuel) =
        visitAux CAP rollback keyEq d key mode vis t s (pos + 1) (j + fuel) := by
      have e1 : j + 1 + fuel = (j + fuel) + 1 := by omega
      rw [e1]
      simp only [visitAux]
      simp [h0.1, h0.2]
    rw [hstep]
    have h2 := ih (pos + 1) fuel (fun m hm => by
      have h3 := hpre (m + 1) (by omega)
      have e2 : pos + (m + 1) = pos + 1 + m := by omega
      rw [e2] at h3
      exact h3)
    rw [h2]
    have e3 : pos + 1 + j = pos + (j + 1) := by omega
    rw [e3]

/-- A read-only Visit that reaches an EMPTY bucket after a run of
non-matching READY buckets returns NOT_FOUND and changes nothing. -/
theorem visit_access_miss {K V S : Type} (CAP : Nat) (rollback : Bool)
    (hash : K → Nat) (keyEq : K → K → Bool) (d : V) (key : K)
    (vis : Visitor S V) (t : Table K V) (s : S) (j : Nat) (hj : j < CAP)
    (hpre : ∀ m, m < j →
      (t ((hash key % CAP + m) % CAP)).state = BucketState.READY ∧
      keyEq (t ((hash key % CAP + m) % CAP)).key key = false)
    (hEmp : (t ((hash key % CAP + j) % CAP)).state = BucketState.EMPTY) :
    Visit CAP rollback hash keyEq d key AccessMode.AccessExist vis t s =
      (Status.NOT_FOUND, t, s) := by
  unfold Visit
  have h1 := visit_skip_probes CAP rollback keyEq d key AccessMode.AccessExist
    vis t s j (hash key % CAP) (CAP - j) hpre
  have e : j + (CAP - j) = CAP := by omega
  rw [e] at h1
  rw [h1]
  obtain ⟨k, hk⟩ : ∃ k, CAP - j = k + 1 := ⟨CAP - j - 1, by omega⟩
  rw [hk]
  simp only [visitAux]
  rw [Nat.mod_add_mod] at hEmp
  simp [hEmp]

/-- Claim C2: insert atomicity on visitor failure, regardless of the
rollback flag.  Whenever Visit with CreateIfMiss claims an EMPTY bucket
(after a run of non-matching READY buckets on its probe path) and the
visitor returns a non-SUCCESS status (an exception is modelled as ERROR),
the bucket is stored back to EMPTY with its key untouched, Visit returns
the visitor's status, and a subsequent Visit on the same key with
AccessExist returns NOT_FOUND. -/
theorem c2_insert_release_on_visitor_failure {K V S : Type} (CAP : Nat)
    (rollback : Bool) (hash : K → Nat) (keyEq : K → K → Bool) (d : V) (key : K)
    (vis : Visitor S V) (t : Table K V) (s : S) (j : Nat) (hj : j < CAP)
    (hpre : ∀ m, m < j →
      (t ((hash key % CAP + m) % CAP)).state = BucketState.READY ∧
      keyEq (t ((hash key % CAP + m) % CAP)).key key = false)
    (hEmp : (t ((hash key % CAP + j) % CAP)).state = BucketState.EMPTY)
    (st : Status) (v2 : V) (s2 : S)
    (hvis : vis s ((hash key % CAP + j) % CAP) d true = (st, v2, s2))
    (hst : st ≠ Status.SUCCESS)
    (t2 : Table K V)
    (ht2 : t2 = Table.set t ((hash key % CAP + j) % CAP)
      ⟨BucketState.EMPTY, (t ((hash key % CAP + j) % CAP)).key,
        if rollback then d else v2⟩) :
    Visit CAP rollback hash keyEq d key AccessMode.CreateIfMiss vis t s = (st, t2, s2)
    ∧ (t2 ((hash key % CAP + j) % CAP)).state = BucketState.EMPTY
    ∧ (t2 ((hash key % CAP + j) % CAP)).key = (t ((hash key % CAP + j) % CAP)).key
    ∧ ∀ (S2 : Type) (vis2 : Visitor S2 V) (s3 : S2),
        Visit CAP rollback hash keyEq d key AccessMode.AccessExist vis2 t2 s3 =
          (Status.NOT_FOUND, t2, s3) := by
  refine ⟨?_, ?_, ?_, ?_⟩
  · unfold Visit
    have h1 := visit_skip_probes CAP rollback keyEq d key AccessMode.CreateIfMiss
      vis t s j (hash key % CAP) (CAP - j) hpre
    have e : j + (CAP - j) = CAP := by omega
    rw [e] at h1
    rw [h1]
    obtain ⟨k, hk⟩ : ∃ k, CAP - j = k + 1 := ⟨CAP - j - 1, by omega⟩
    rw [hk]
    subst ht2
    simp only [visitAux]
    rw [Nat.mod_add_mod] at hEmp hvis ⊢
    simp [hEmp, hvis, hst]
  · rw [ht2, Table.set_self]
  · rw [ht2, Table.set_self]
  · intro S2 vis2 s3
    refine visit_access_miss CAP rollback hash keyEq d key vis2 t2 s3 j hj ?_ ?_
    · intro m hm
      rw [ht2, Table.set_ne _ _ _ _
        (probe_mod_ne CAP (hash key % CAP) m j hm hj)]
      exact hpre m hm
    · rw [ht2, Table.set_self]

/-- Claim C2 witness: a failing insert of key 42 into the empty capacity-8
table (rollback enabled) returns the visitor's ERROR status and leaves
bucket 2 EMPTY with default key and value. -/
theorem c2_witness :
    Visit 8 true intHash intEq 0 42 AccessMode.CreateIfMiss
      (failVis 5 Status.ERROR) emptyTable () =
      (Status.ERROR, Table.set emptyTable 2 ⟨BucketState.EMPTY, 0, 0⟩, ()) :=
  (c2_insert_release_on_visitor_failure 8 true intHash intEq 0 42
    (failVis 5 Status.ERROR) emptyTable () 0 (by decide)
    (fun m hm => absurd hm (Nat.not_lt_zero m)) rfl Status.ERROR 5 () rfl
    (by decide) (Table.set emptyTable 2 ⟨BucketState.EMPTY, 0, 0⟩) rfl).1

/-- Claim C3: rollback on update failure.  On a rollback-enabled table a
Visit that reaches an existing key (READY path, isNew = false) and whose
visitor returns a non-SUCCESS status (an exception is modelled as ERROR)
returns that status and leaves the table completely unchanged: the bucket
holds its pre-visit value and is READY again. -/
theorem c3_rollback_on_update_failure {K V S : Type} (CAP : Nat)
    (hash : K → Nat) (keyEq : K → K → Bool) (d : V) (key : K)
    (mode : AccessMode) (vis : Visitor S V) (t : Table K V) (s : S)
    (j : Nat) (hj : j < CAP)
    (hpre : ∀ m, m < j →
      (t ((hash key % CAP + m) % CAP)).state = BucketState.READY ∧
      keyEq (t ((hash key % CAP + m) % CAP)).key key = false)
    (hRdy : (t ((hash key % CAP + j) % CAP)).state = BucketState.READY)
    (hKey : keyEq (t ((hash key % CAP + j) % CAP)).key key = true)
    (st : Status) (v2 : V) (s2 : S)
    (hvis : vis s ((hash key % CAP + j) % CAP)
      (t ((hash key % CAP + j) % CAP)).value false = (st, v2, s2))
    (hst : st ≠ Status.SUCCESS) :
    Visit CAP true hash keyEq d key mode vis t s = (st, t, s2) := by
  unfold Visit
  have h1 := visit_skip_probes CAP true keyEq d key mode vis t s j
    (hash key % CAP) (CAP - j) hpre
  have e : j + (CAP - j) = CAP := by omega
  rw [e] at h1
  rw [h1]
  obtain ⟨k, hk⟩ : ∃ k, CAP - j = k + 1 := ⟨CAP - j - 1, by omega⟩
  rw [hk]
  have hset : Table.set t ((hash key % CAP + j) % CAP)
      ⟨BucketState.READY, (t ((hash key % CAP + j) % CAP)).key,
        (t ((hash key % CAP + j) % CAP)).value⟩ = t := by
    funext x
    unfold Table.set
    by_cases hx : x = (hash key % CAP + j) % CAP
    · subst hx
      rw [if_pos rfl, ← hRdy]
    · rw [if_neg hx]
  simp only [visitAux]
  rw [Nat.mod_add_mod] at hRdy hKey hvis hset ⊢
  simp [hRdy, hKey, hvis, hst, hset]

/-- Claim C3 witness: with (7, 1) stored in bucket 3 of a rollback-enabled
capacity-4 table, a visitor that writes 2 but returns ERROR leaves the
table unchanged and Visit returns ERROR. -/
theorem c3_witness :
    Visit 4 true intHash intEq 0 7 AccessMode.AccessExist
      (failVis 2 Status.ERROR) c3t () = (Status.ERROR, c3t, ()) :=
  c3_rollback_on_update_failure 4 intHash intEq 0 7 AccessMode.AccessExist
    (failVis 2 Status.ERROR) c3t () 0 (by decide)
    (fun m hm => absurd hm (Nat.not_lt_zero m)) rfl rfl Status.ERROR 2 () rfl
    (by decide)

/-- On a quiescent range the traversal loop agrees with the reference
function run on the READY indices of that range, in increasing order. -/
theorem travelAux_spec {K V S : Type} (vis : TravelVisitor S K V) :
    ∀ (fuel idx : Nat) (t : Table K V) (s : S),
      (∀ i, idx ≤ i → i < idx + fuel →
        (t i).state = BucketState.EMPTY ∨ (t i).state = BucketState.READY) →
      travelAux vis fuel idx t s =
        travelSpec vis ((List.range' idx fuel).filter
          (fun i => decide ((t i).state = BucketState.READY))) t s := by
  intro fuel
  induction fuel with
  | zero => intro idx t s _; simp [travelAux, travelSpec]
  | succ fuel ih =>
    intro idx t s hq
    have hcur := hq idx (Nat.le_refl idx) (by omega)
    rw [List.range'_succ]
    cases hcur with
    | inl hE =>
      have hstep : travelAux vis (fuel + 1) idx t s =
          travelAux vis fuel (idx + 1) t s := by
        simp only [travelAux]
        simp [hE]
      rw [hstep, List.filter_cons]
      rw [if_neg (by simp [hE])]
      exact ih (idx + 1) t s (fun i h1 h2 => hq i (by omega) (by omega))
    | inr hR =>
      rw [List.filter_cons, if_pos (by simp [hR])]
      by_cases hsuc : (vis s idx (t idx).key (t idx).value).1 = Status.SUCCESS
      · have ihx := ih (idx + 1)
          (Table.set t idx ⟨BucketState.READY, (t idx).key,
            (vis s idx (t idx).key (t idx).value).2.1⟩)
          ((vis s idx (t idx).key (t idx).value).2.2)
          (fun i h1 h2 => by
            rw [Table.set_ne _ _ _ _ (by omega)]
            exact hq i (by omega) (by omega))
        have hfc : (List.range' (idx + 1) fuel).filter
            (fun i => decide ((Table.set t idx ⟨BucketState.READY, (t idx).key,
              (vis s idx (t idx).key (t idx).value).2.1⟩ i).state =
                BucketState.READY)) =
            (List.range' (idx + 1) fuel).filter
            (fun i => decide ((t i).state = BucketState.READY)) := by
          apply List.filter_congr
          intro a ha
          have hane : a ≠ idx := by
            have := List.mem_range'_1.1 ha
            omega
          rw [Table.set_ne _ _ _ _ hane]
        rw [hfc] at ihx
        simp only [travelAux, travelSpec]
        rw [hR]
        simp [hsuc, ihx]
      · simp only [travelAux, travelSpec]
        rw [hR]
        simp [hsuc]

/-- Claim C4: Travel semantics on a quiescent table.  Travel coincides
with the reference function that runs the visitor exactly on the READY
bucket indices in increasing order, aborting with the visitor's status at
the first non-SUCCESS result and returning SUCCESS otherwise; an EMPTY
bucket merely advances the scan, so READY buckets after an EMPTY index are
still visited.  The listed indices are exactly the READY ones, in
increasing order.  (Transient bucket states belong to an operation in
flight and are unreachable at rest in the sequential model.) -/
theorem c4_travel_ready_in_order {K V S : Type} (CAP : Nat) (rollback : Bool)
    (vis : TravelVisitor S K V) (t : Table K V) (s : S)
    (hq : Quiescent CAP t) :
    Travel CAP rollback vis t s = travelSpec vis (readyIndices CAP t) t s
    ∧ (∀ i, i ∈ readyIndices CAP t ↔ i < CAP ∧ (t i).state = BucketState.READY)
    ∧ List.Pairwise (· < ·) (readyIndices CAP t) := by
  refine ⟨?_, ?_, ?_⟩
  · unfold Travel readyIndices
    rw [List.range_eq_range']
    exact travelAux_spec vis CAP 0 t s (fun i h1 h2 => hq i (by omega))
  · intro i
    unfold readyIndices
    simp [List.mem_filter, List.mem_range]
  · exact (List.pairwise_lt_range CAP).filter _

/-- Claim C4 witness: on the concrete quiescent table with READY buckets
at indices 0 and 2 and an EMPTY bucket at index 1, Travel equals the
reference run over its READY indices. -/
theorem c4_witness :
    Travel 4 false countVis c4t 0 = travelSpec countVis (readyIndices 4 c4t) c4t 0 :=
  (c4_travel_ready_in_order 4 false countVis c4t 0 (by decide)).1

/-- The traversal loop skips over a run of EMPTY buckets. -/
theorem travel_skip_empty {K V S : Type} (vis : TravelVisitor S K V)
    (t : Table K V) (s : S) (k : Nat) :
    ∀ (idx fuel : Nat),
      (∀ m, m < k → (t (idx + m)).state = BucketState.EMPTY) →
      travelAux vis (k + fuel) idx t s = travelAux vis fuel (idx + k) t s := by
  induction k with
  | zero => intro idx fuel _; simp
  | succ k ih =>
    intro idx fuel hpre
    have h0 := hpre 0 k.succ_pos
    rw [Nat.add_zero] at h0
    have hstep : travelAux vis (k + 1 + fuel) idx t s =
        travelAux vis (k + fuel) (idx + 1) t s := by
      have e1 : k + 1 + fuel = (k + fuel) + 1 := by omega
      rw [e1]
      simp only [travelAux]
      simp [h0]
    rw [hstep]
    have h2 := ih (idx + 1) fuel (fun m hm => by
      have h3 := hpre (m + 1) (by omega)
      have e2 : idx + (m + 1) = idx + 1 + m := by omega
      rw [e2] at h3
      exact h3)
    rw [h2]
    have e3 : idx + 1 + k = idx + (k + 1) := by omega
    rw [e3]

/-- Claim C10: Travel performs no value rollback even when the table's
rollback flag is set.  If the traversal reaches a READY bucket (here, the
first non-EMPTY one) and the visitor writes the value and returns a
non-SUCCESS status, Travel stores READY and returns that status with the
visitor's written value left in place, never restoring the pre-visit
value. -/
theorem c10_travel_no_value_rollback {K V S : Type} (CAP : Nat)
    (rollback : Bool) (vis : TravelVisitor S K V) (t : Table K V) (s : S)
    (i : Nat) (hi : i < CAP)
    (hpre : ∀ j, j < i → (t j).state = BucketState.EMPTY)
    (hRdy : (t i).state = BucketState.READY)
    (st : Status) (v2 : V) (s2 : S)
    (hvis : vis s i (t i).key (t i).value = (st, v2, s2))
    (hst : st ≠ Status.SUCCESS) :
    Travel CAP rollback vis t s =
      (st, Table.set t i ⟨BucketState.READY, (t i).key, v2⟩, s2)
    ∧ (Table.set t i ⟨BucketState.READY, (t i).key, v2⟩ i).value = v2 := by
  constructor
  · unfold Travel
    have h1 := travel_skip_empty vis t s i 0 (CAP - i) (fun m hm => by
      rw [Nat.zero_add]; exact hpre m hm)
    rw [Nat.zero_add] at h1
    have e : i + (CAP - i) = CAP := by omega
    rw [e] at h1
    rw [h1]
    obtain ⟨k, hk⟩ : ∃ k, CAP - i = k + 1 := ⟨CAP - i - 1, by omega⟩
    rw [hk]
    simp only [travelAux]
    simp [hRdy, hvis, hst]
  · rw [Table.set_self]

/-- Claim C10 witness: on a rollback-enabled capacity-4 table holding
(5, 1) in bucket 2, a travel visitor that writes 99 and returns ERROR
leaves 99 in the bucket and Travel returns ERROR. -/
theorem c10_witness :
    Travel 4 true c10vis c10t () =
      (Status.ERROR, Table.set c10t 2 ⟨BucketState.READY, (c10t 2).key, 99⟩, ()) :=
  (c10_travel_no_value_rollback 4 true c10vis c10t () 2 (by decide)
    (by decide) rfl Status.ERROR 99 () rfl (by decide)).1

/-- Claim C1: single-threaded round trip on a capacity-8 int-to-int table
starting from the zero state.  Visit(42, CreateIfMiss, value := 100)
returns SUCCESS and the visitor observes isNew = true; a subsequent
Visit(42, AccessExist, read) returns SUCCESS and the visitor observes
value 100; Visit(43, AccessExist, read) returns NOT_FOUND. -/
theorem c1_single_thread_round_trip :
    (Visit 8 false intHash intEq 0 42 AccessMode.CreateIfMiss (setVis 100)
      emptyTable false).1 = Status.SUCCESS
    ∧ (Visit 8 false intHash intEq 0 42 AccessMode.CreateIfMiss (setVis 100)
      emptyTable false).2.2 = true
    ∧ (Visit 8 false intHash intEq 0 42 AccessMode.AccessExist readVis
        (Visit 8 false intHash intEq 0 42 AccessMode.CreateIfMiss (setVis 100)
          emptyTable false).2.1 none).1 = Status.SUCCESS
    ∧ (Visit 8 false intHash intEq 0 42 AccessMode.AccessExist readVis
        (Visit 8 false intHash intEq 0 42 AccessMode.CreateIfMiss (setVis 100)
          emptyTable false).2.1 none).2.2 = some 100
    ∧ (Visit 8 false intHash intEq 0 43 AccessMode.AccessExist readVis
        (Visit 8 false intHash intEq 0 42 AccessMode.CreateIfMiss (setVis 100)
          emptyTable false).2.1 none).1 = Status.NOT_FOUND := by
  decide

/-- Every sequence of ring operations preserves the ring invariant. -/
theorem runOps_inv {T : Type} (N : Nat) :
    ∀ (ops : List (RbOp T)) (x : RingBuffer T × Nat × Nat),
      RbInv N x → RbInv N (runOps N ops x) := by
  intro ops
  induction ops with
  | nil => intro x hx; simpa [runOps] using hx
  | cons op rest ih =>
    intro x hx
    obtain ⟨rb, p, q⟩ := x
    simp only [RbInv] at hx
    obtain ⟨h1, h2, h3, h4⟩ := hx
    cases op with
    | push v =>
      by_cases hfull : N ≤ rb.tail - rb.head
      · have hp : RingBuffer.push N rb v = (false, rb) := by
          simp [RingBuffer.push, hfull]
        simp only [runOps, hp]
        apply ih
        simp only [RbInv]
        refine ⟨?_, ?_, ?_, ?_⟩ <;> (try simp) <;> omega
      · have hp : RingBuffer.push N rb v = (true, { rb with
            data := fun j => if j = rb.tail % N then v else rb.data j,
            tail := rb.tail + 1 }) := by
          simp [RingBuffer.push, hfull]
        simp only [runOps, hp]
        apply ih
        simp only [RbInv]
        refine ⟨?_, ?_, ?_, ?_⟩ <;> (try simp) <;> omega
    | pop =>
      by_cases hemp : rb.tail ≤ rb.head
      · have hp : RingBuffer.pop N rb = (none, rb) := by
          simp [RingBuffer.pop, hemp]
        simp only [runOps, hp]
        apply ih
        simp only [RbInv]
        refine ⟨?_, ?_, ?_, ?_⟩ <;> (try simp) <;> omega
      · have hp : RingBuffer.pop N rb = (some (rb.data (rb.head % N)),
            { rb with head := rb.head + 1 }) := by
          simp [RingBuffer.pop, hemp]
        simp only [runOps, hp]
        apply ih
        simp only [RbInv]
        refine ⟨?_, ?_, ?_, ?_⟩ <;> (try simp) <;> omega

/-- Claim C5: ring buffer invariant and FIFO conservation.  From the zero
state, every sequence of push and pop operations keeps head ≤ tail and
size = tail - head ≤ N; the number of successful pushes equals tail, the
number of successful pops equals head, so pushed minus popped equals
tail - head.  Moreover push fails changing nothing exactly when
tail - head ≥ N and otherwise writes data[tail mod N] and increments
tail, and pop fails exactly when head ≥ tail and otherwise returns
data[head mod N] and increments head. -/
theorem c5_ring_invariant_conservation {T : Type} (N : Nat) (dflt : T)
    (ops : List (RbOp T)) :
    (runOps N ops (rbZero dflt, 0, 0)).1.head ≤
      (runOps N ops (rbZero dflt, 0, 0)).1.tail
    ∧ RingBuffer.size (runOps N ops (rbZero dflt, 0, 0)).1 ≤ N
    ∧ (runOps N ops (rbZero dflt, 0, 0)).2.1 -
        (runOps N ops (rbZero dflt, 0, 0)).2.2 =
        (runOps N ops (rbZero dflt, 0, 0)).1.tail -
          (runOps N ops (rbZero dflt, 0, 0)).1.head
    ∧ (runOps N ops (rbZero dflt, 0, 0)).2.1 =
        (runOps N ops (rbZero dflt, 0, 0)).1.tail
    ∧ (runOps N ops (rbZero dflt, 0, 0)).2.2 =
        (runOps N ops (rbZero dflt, 0, 0)).1.head
    ∧ (∀ (rb : RingBuffer T) (v : T), N ≤ rb.tail - rb.head →
        RingBuffer.push N rb v = (false, rb))
    ∧ (∀ (rb : RingBuffer T) (v : T), rb.tail - rb.head < N →
        RingBuffer.push N rb v = (true, { rb with
          data := fun j => if j = rb.tail % N then v else rb.data j,
          tail := rb.tail + 1 }))
    ∧ (∀ rb : RingBuffer T, rb.tail ≤ rb.head →
        RingBuffer.pop N rb = (none, rb))
    ∧ (∀ rb : RingBuffer T, rb.head < rb.tail →
        RingBuffer.pop N rb = (some (rb.data (rb.head % N)),
          { rb with head := rb.head + 1 })) := by
  have hinv := runOps_inv N ops (rbZero dflt, 0, 0) (by simp [RbInv, rbZero])
  simp only [RbInv] at hinv
  obtain ⟨h1, h2, h3, h4⟩ := hinv
  refine ⟨h1, h2, by omega, h3, h4, ?_, ?_, ?_, ?_⟩
  · intro rb v h
    simp [RingBuffer.push, h]
  · intro rb v h
    have h2 : ¬ N ≤ rb.tail - rb.head := by omega
    simp [RingBuffer.push, h2]
  · intro rb h
    simp [RingBuffer.pop, h]
  · intro rb h
    have h2 : ¬ rb.tail ≤ rb.head := by omega
    simp [RingBuffer.pop, h2]

/-- Claim C5 witness: the invariant after a concrete operation sequence
that overfills a capacity-2 ring and pops once. -/
theorem c5_witness :
    (runOps 2 [RbOp.push (1 : Int), RbOp.push 2, RbOp.push 3, RbOp.pop]
      (rbZero 0, 0, 0)).1.head ≤
    (runOps 2 [RbOp.push (1 : Int), RbOp.push 2, RbOp.push 3, RbOp.pop]
      (rbZero 0, 0, 0)).1.tail :=
  (c5_ring_invariant_conservation 2 0
    [RbOp.push 1, RbOp.push 2, RbOp.push 3, RbOp.pop]).1

/-- Claim C6 counterexample: allocate's overflow check is computed in
wrapping size_t arithmetic.  On the one-element capacity-3 vector,
allocate(2^64 - 1) wraps 1 + (2^64 - 1) to 0, passes the check, succeeds
returning index 1 and stores size 0 — succeeding where the claim requires
nullopt (previous + n = 2^64 > 3) and decreasing the size the claim says
never decreases. -/
theorem c6_counterexample :
    (ShmVector.allocate 3 v6 (U64 - 1)).1 = some 1
    ∧ ((ShmVector.allocate 3 v6 (U64 - 1)).2).size = 0
    ∧ ((ShmVector.allocate 3 v6 (U64 - 1)).2).size < v6.size := by
  refine ⟨?_, ?_, ?_⟩ <;> decide

/-- Claim C6 (amended): allocate's overflow check wraps in size_t.
allocate(n) returns the previous size and stores (size + n) mod 2^64 when
that wrapped sum fits the capacity, and returns nullopt leaving everything
unchanged when the wrapped sum exceeds it.  In the wrap-free regime this
is the claimed behavior: when size + n ≤ N it succeeds advancing size by
exactly n, and size never decreases whenever size + n < 2^64; push_back is
exactly allocate(1) followed by a store at the returned index. -/
theorem c6_vector_allocate_push_back {T : Type} (N : Nat) (v : ShmVector T)
    (n : Nat) (x : T) (hN : N < U64) :
    ((v.size + n) % U64 ≤ N →
      ShmVector.allocate N v n =
        (some v.size, { v with size := (v.size + n) % U64 }))
    ∧ (N < (v.size + n) % U64 → ShmVector.allocate N v n = (none, v))
    ∧ (v.size + n ≤ N →
      ShmVector.allocate N v n = (some v.size, { v with size := v.size + n }))
    ∧ (v.size + n < U64 → v.size ≤ ((ShmVector.allocate N v n).2).size)
    ∧ ShmVector.push_back N v x =
        (match ShmVector.allocate N v 1 with
          | (none, v2) => (none, v2)
          | (some i, v2) =>
            (some i, { v2 with data := fun j => if j = i then x else v2.data j })) := by
  refine ⟨?_, ?_, ?_, ?_, rfl⟩
  · intro h
    unfold ShmVector.allocate
    rw [if_neg (by omega)]
  · intro h
    unfold ShmVector.allocate
    rw [if_pos h]
  · intro h
    have hlt : v.size + n < U64 := by omega
    have heq : (v.size + n) % U64 = v.size + n := Nat.mod_eq_of_lt hlt
    unfold ShmVector.allocate
    rw [heq, if_neg (by omega)]
  · intro h
    have heq : (v.size + n) % U64 = v.size + n := Nat.mod_eq_of_lt h
    unfold ShmVector.allocate
    by_cases hc : N < (v.size + n) % U64
    · rw [if_pos hc]
    · rw [if_neg hc]
      simp [heq]

/-- Claim C6 witness: allocating one slot of a capacity-3 vector holding
one element returns index 1 and advances the size by exactly one. -/
theorem c6_witness :
    ShmVector.allocate 3 v6 1 = (some v6.size, { v6 with size := v6.size + 1 }) :=
  (c6_vector_allocate_push_back 3 v6 1 (0 : Int) (by decide)).2.2.1 (by decide)

/-- Claim C9: element access through operator[] is bounds-checked against
both the capacity and the current size: it is rejected exactly when
i ≥ N or i ≥ size, and otherwise yields the stored element. -/
theorem c9_bounds_checked_access {T : Type} (N : Nat) (v : ShmVector T)
    (i : Nat) :
    (ShmVector.get N v i = none ↔ ¬(i < N ∧ i < v.size))
    ∧ (i < N → i < v.size → ShmVector.get N v i = some (v.data i)) := by
  constructor
  · unfold ShmVector.get
    by_cases h : i < N ∧ i < v.size
    · simp [h]
    · simp [h]
  · intro h1 h2
    unfold ShmVector.get
    rw [if_pos ⟨h1, h2⟩]

/-- Claim C9 witness: the in-bounds read of element 0 of a one-element
capacity-3 vector succeeds. -/
theorem c9_witness : ShmVector.get 3 v6 0 = some (v6.data 0) :=
  (c9_bounds_checked_access 3 v6 0).2 (by decide) (by decide)

/-- Claim C7: Backoff policy.  With the spin counter at k (the k-th
invocation, counting from 0, when every earlier call continued), next
consults the deadline first and gives up, without waiting, exactly when
the elapsed time exceeds the timeout; otherwise it continues after a
yield when k < 10 and after a sleep of 2^min(k-10, 20) nanoseconds when
k ≥ 10, incrementing the counter. -/
theorem c7_backoff_policy (k elapsed timeout : Nat) :
    (timeout < elapsed →
      Backoff.next ⟨k⟩ elapsed timeout = (false, BackoffAction.giveUp, ⟨k⟩))
    ∧ ((Backoff.next ⟨k⟩ elapsed timeout).1 = false ↔ timeout < elapsed)
    ∧ (elapsed ≤ timeout → k < 10 →
      Backoff.next ⟨k⟩ elapsed timeout = (true, BackoffAction.yield, ⟨k + 1⟩))
    ∧ (elapsed ≤ timeout → 10 ≤ k →
      Backoff.next ⟨k⟩ elapsed timeout =
        (true, BackoffAction.sleep (2 ^ min (k - 10) 20), ⟨k + 1⟩)) := by
  refine ⟨?_, ?_, ?_, ?_⟩
  · intro h
    unfold Backoff.next
    rw [if_pos h]
  · unfold Backoff.next
    by_cases h : timeout < elapsed
    · rw [if_pos h]
      simpa using h
    · rw [if_neg h]
      by_cases h2 : (⟨k⟩ : Backoff).spin < YIELD_LIMIT
      · rw [if_pos h2]
        simpa using h
      · rw [if_neg h2]
        simpa using h
  · intro h1 h2
    unfold Backoff.next
    rw [if_neg (by omega), if_pos (show (⟨k⟩ : Backoff).spin < YIELD_LIMIT by
      simpa [YIELD_LIMIT] using h2)]
  · intro h1 h2
    unfold Backoff.next
    rw [if_neg (by omega), if_neg (show ¬(⟨k⟩ : Backoff).spin < YIELD_LIMIT by
      simpa [YIELD_LIMIT] using h2)]
    rfl

/-- Claim C7 witness: at spin count 12 within the deadline, next sleeps
2^2 nanoseconds and continues. -/
theorem c7_witness :
    Backoff.next ⟨12⟩ 5 100 =
      (true, BackoffAction.sleep (2 ^ min (12 - 10) 20), ⟨12 + 1⟩) :=
  (c7_backoff_policy 12 5 100).2.2.2 (by decide) (by decide)

/-- Claim C8 counterexample: the readiness wait of ShmBlock::Open/Create
does not terminate on a block left in BUILDING state — it has no Backoff
deadline at all, refuting the claim that every waiting operation completes
or returns TIMEOUT within a Backoff budget. -/
theorem c8_counterexample : ¬ WaitReadyTerminates BLOCK_BUILDING := by
  intro hterm
  obtain ⟨n, hn⟩ := hterm
  have hall : ∀ m, waitReadySteps BLOCK_BUILDING m = false := by
    intro m
    induction m with
    | zero => rfl
    | succ m ih => simpa [waitReadySteps, BLOCK_BUILDING, BLOCK_READY] using ih
  rw [hall n] at hn
  exact absurd hn (by simp)

/-- Claim C8 (amended): ShmBlock::WaitReady and the drain loop of
BroadcastRingBuffer::push spin with no deadline: the readiness wait
terminates exactly when the block state is already READY, and the drain
wait terminates exactly when the slot's remain count is already 0;
otherwise they block indefinitely, with no TIMEOUT path. -/
theorem c8_unbounded_wait_loops (st r : Nat) :
    (WaitReadyTerminates st ↔ st = BLOCK_READY)
    ∧ (BroadcastDrainTerminates r ↔ r = 0) := by
  constructor
  · constructor
    · rintro ⟨n, hn⟩
      by_contra hne
      have hall : ∀ m, waitReadySteps st m = false := by
        intro m
        induction m with
        | zero => rfl
        | succ m ih => simpa [waitReadySteps, hne] using ih
      rw [hall n] at hn
      exact absurd hn (by simp)
    · intro h
      exact ⟨1, by simp [waitReadySteps, h]⟩
  · constructor
    · rintro ⟨n, hn⟩
      by_contra hne
      have hall : ∀ m, broadcastDrainSteps r m = false := by
        intro m
        induction m with
        | zero => rfl
        | succ m ih => simpa [broadcastDrainSteps, hne] using ih
      rw [hall n] at hn
      exact absurd hn (by simp)
    · intro h
      exact ⟨1, by simp [broadcastDrainSteps, h]⟩

end Shmap
